import Mathlib

/-!
Verification of the BrainBox streaming/decode/classification pipeline.

The definitions below are shallow embeddings of the Python sources:
  * `process_data`      — `SpikerStream.process_data` in `Game/spikerbox.py`
                          (identical copy in `SpikerStreamPython/input_stream.py`);
  * `ArrayStream`       — `ArrayStream.__init__`/`update` in `Game/spikerbox.py`;
  * `normalise_signal`  — `normalise_signal` in `WaveformSnipper/main.py`;
  * `process_input`     — `SpikerBox.process_input` in `Game/spikerbox.py`.

Samples are modelled as rationals (`ℚ`), raw serial bytes as naturals.
-/

namespace BrainBox

/-- Embedding of the loop body of `SpikerStream.process_data`: starting at
index `i`, while `i < len(data) - 1`, a byte with value `> 127` emits
`(data[i] & 127) * 128 + data[i+1]` and advances `i` by 2; any other byte is
skipped (`i` advances by 1). -/
def process_data_go (data : List Nat) (i : Nat) : List Nat :=
  if h : i + 1 < data.length then
    have h1 : i < data.length := Nat.lt_of_succ_lt h
    if 127 < data[i] then
      ((data[i] &&& 127) * 128 + data[i + 1]) :: process_data_go data (i + 2)
    else
      process_data_go data (i + 1)
  else
    []
termination_by data.length - i

/-- Embedding of `SpikerStream.process_data`: the scan starts at index 1. -/
def process_data (data : List Nat) : List Nat :=
  process_data_go data 1

/-- Modelled from the spec words of the frame-decoder claim: after skipping the
first byte, repeatedly look at the head of the remaining bytes while at least
two bytes remain (so the final byte is never scanned as a marker); a marker
byte (`> 127`) emits `(byte & 0x7F) * 128 + next_byte` and consumes both bytes,
any other byte is skipped. -/
def decodeSpecGo : List Nat → List Nat
  | b :: next :: rest =>
    if 127 < b then ((b &&& 127) * 128 + next) :: decodeSpecGo rest
    else decodeSpecGo (next :: rest)
  | _ => []

/-- Spec-level frame decoder: scan everything after the first byte. -/
def decodeSpec (data : List Nat) : List Nat :=
  decodeSpecGo data.tail

/-- State of `ArrayStream` (`Game/spikerbox.py`): the loaded array, the chunk
size (`(chunk // 2) - 1` of the constructor argument, applied by the caller of
this model), and the read pointer. -/
structure ArrayStream where
  array : List ℚ
  chunk : Nat
  pointer : Nat

/-- Result of one `ArrayStream.update()` call: the returned slice, the new
stream state, and whether the "Restarting stream..." notice was printed. -/
structure UpdateResult where
  slice : List ℚ
  state : ArrayStream
  restarted : Bool

/-- Embedding of `ArrayStream.update`: return `array[pointer : pointer+chunk]`,
advance the pointer by `chunk`, and reset it to 0 (printing a restart notice)
when it exceeds the array length. -/
def ArrayStream.update (s : ArrayStream) : UpdateResult :=
  let slice := (s.array.drop s.pointer).take s.chunk
  let p := s.pointer + s.chunk
  if s.array.length < p then
    ⟨slice, ⟨s.array, s.chunk, 0⟩, true⟩
  else
    ⟨slice, ⟨s.array, s.chunk, p⟩, false⟩

/-- Iterate `update` a given number of times, collecting the restart flags in
call order. -/
def ArrayStream.runUpdates : ArrayStream → Nat → ArrayStream × List Bool
  | s, 0 => (s, [])
  | s, n + 1 =>
    let r := s.update
    let rest := ArrayStream.runUpdates r.state n
    (rest.1, r.restarted :: rest.2)

/-- Maximum of the absolute values of a list, the embedding of
`np.max(np.abs(xs))` (0 on the empty list, where numpy would error). -/
def maxAbs (l : List ℚ) : ℚ :=
  (l.map abs).foldr max 0

/-- Embedding of `normalise_signal` (`WaveformSnipper/main.py`): subtract the
mean, then divide by the maximum absolute value of the centred signal.  The
Python code performs the division unconditionally; when the maximum absolute
value is 0 (constant input) numpy divides by zero and fills the result with
NaNs.  That undefined outcome is modelled as `none`; a defined result is
`some`. -/
def normalise_signal (signal : List ℚ) : Option (List ℚ) :=
  let signal_centre := signal.sum / (signal.length : ℚ)
  let standardised_signal := signal.map (fun x => x - signal_centre)
  let signal_amplitude := maxAbs standardised_signal
  if signal_amplitude = 0 then none
  else some (standardised_signal.map (fun x => x / signal_amplitude))

/-- The game's control dictionary: `{LEFT, RIGHT, SHOOT}`, each 0 or 1. -/
structure Controls where
  left : Nat
  right : Nat
  shoot : Nat

/-- The mutable fields of `SpikerBox` used by `process_input`, plus the
`buffer_time` of the attached stream. -/
structure PipelineState where
  buffer : Option (List ℚ)
  bufferSize : Nat
  bufferTimer : ℚ
  streamBufferTime : ℚ

/-- Observable outcome of one `process_input` call: the new `SpikerBox` state,
the returned controls, whether a chunk was pulled from the stream, and the
label computed on this call (`none` when the timer gate returned early and no
label was produced). -/
structure StepResult where
  state : PipelineState
  controls : Controls
  pulled : Bool
  label : Option String

/-- Buffer update of `SpikerBox.process_input` (lines 51-57): the first chunk
becomes the buffer; afterwards, when the buffer length exceeds `buffer_size`,
`len(chunk) + 1` samples are dropped from the front before the chunk is
concatenated. -/
def pullStep (bufferSize : Nat) (buffer : Option (List ℚ)) (chunk : List ℚ) : List ℚ :=
  match buffer with
  | none => chunk
  | some buf =>
    (if bufferSize < buf.length then buf.drop (chunk.length + 1) else buf) ++ chunk

/-- Embedding of `SpikerBox.process_input`.  `classify` abstracts the opaque
smoothing/feature-extraction/model chain applied to a ready buffer (the model
is an external collaborator); `chunk` is the data `self.stream.update()` would
return if called on this tick.  The timer gate adds `tick` to `buffer_timer`
and returns the controls unchanged while `buffer_timer / 1000 <
stream.buffer_time`; otherwise the timer resets to 0, the chunk is pulled into
the buffer, a label is computed (classification only when the buffer length
exceeds `buffer_size`, else `"noise"`), and LEFT/RIGHT are overwritten from
the label.  SHOOT is left untouched (the assignment is commented out in the
source). -/
def process_input (classify : List ℚ → String) (st : PipelineState)
    (chunk : List ℚ) (controls : Controls) (tick : ℚ) : StepResult :=
  let timer := st.bufferTimer + tick
  if timer / 1000 < st.streamBufferTime then
    ⟨⟨st.buffer, st.bufferSize, timer, st.streamBufferTime⟩, controls, false, none⟩
  else
    let buffer := pullStep st.bufferSize st.buffer chunk
    let label := if st.bufferSize < buffer.length then classify buffer else "noise"
    ⟨⟨some buffer, st.bufferSize, 0, st.streamBufferTime⟩,
      ⟨if label = "left" then 1 else 0, if label = "right" then 1 else 0, controls.shoot⟩,
      true, some label⟩

/-- Fold `pullStep` over a sequence of pulled chunks, starting from a given
buffer. -/
def runPullsFrom (bufferSize : Nat) (buffer : Option (List ℚ)) (chunks : List (List ℚ)) :
    Option (List ℚ) :=
  chunks.foldl (fun b c => some (pullStep bufferSize b c)) buffer

/-- Fold `pullStep` over a sequence of pulled chunks, starting from the empty
pipeline (`self.buffer = None`). -/
def runPulls (bufferSize : Nat) (chunks : List (List ℚ)) : Option (List ℚ) :=
  runPullsFrom bufferSize none chunks

/-- Run a sequence of `process_input` calls; each call supplies the chunk the
stream would deliver and the elapsed tick.  Returns the final state, the final
controls, and the pulled flags in call order. -/
def runPolls (classify : List ℚ → String) (st : PipelineState) (controls : Controls) :
    List (List ℚ × ℚ) → PipelineState × Controls × List Bool
  | [] => (st, controls, [])
  | (chunk, tick) :: rest =>
    let r := process_input classify st chunk controls tick
    let after := runPolls classify r.state r.controls rest
    (after.1, after.2.1, r.pulled :: after.2.2)

/-! Lemmas about the frame decoder. -/

lemma decodeSpecGo_short {l : List Nat} (h : l.length ≤ 1) : decodeSpecGo l = [] := by
  match l with
  | [] => rfl
  | [b] => rfl
  | b :: next :: rest => simp at h

lemma process_data_go_eq (data : List Nat) :
    ∀ n i, data.length - i ≤ n → process_data_go data i = decodeSpecGo (data.drop i) := by
  intro n
  induction n with
  | zero =>
    intro i hn
    have hlen : data.length ≤ i := by omega
    rw [process_data_go, dif_neg (by omega), List.drop_eq_nil_of_le hlen]
    rfl
  | succ n ih =>
    intro i hn
    rw [process_data_go]
    by_cases h : i + 1 < data.length
    · have h1 : i < data.length := Nat.lt_of_succ_lt h
      rw [dif_pos h, List.drop_eq_getElem_cons h1, List.drop_eq_getElem_cons h]
      rw [decodeSpecGo]
      by_cases hm : 127 < data[i]
      · simp only [if_pos hm]
        rw [ih (i + 2) (by omega)]
      · simp only [if_neg hm]
        rw [← List.drop_eq_getElem_cons h, ih (i + 1) (by omega)]
    · rw [dif_neg h]
      have : (data.drop i).length ≤ 1 := by
        rw [List.length_drop]; omega
      rw [decodeSpecGo_short this]

lemma process_data_eq_decodeSpec (data : List Nat) : process_data data = decodeSpec data := by
  rw [process_data, decodeSpec, ← List.drop_one]
  exact process_data_go_eq data (data.length - 1) 1 (by omega)

/-! Lemmas about the sliding-buffer pull step. -/

lemma pullStep_length_le (bufferSize chunkLen : Nat) (buffer : Option (List ℚ))
    (chunk : List ℚ) (hc : chunk.length = chunkLen)
    (hb : ∀ b, buffer = some b → b.length ≤ bufferSize + chunkLen) :
    (pullStep bufferSize buffer chunk).length ≤ bufferSize + chunkLen := by
  match buffer with
  | none =>
    simp only [pullStep, hc]
    omega
  | some b =>
    have hble := hb b rfl
    by_cases h : bufferSize < b.length
    · simp only [pullStep, if_pos h, List.length_append, List.length_drop]
      omega
    · simp only [pullStep, if_neg h, List.length_append]
      omega

lemma runPullsFrom_length_le (bufferSize chunkLen : Nat) :
    ∀ (chunks : List (List ℚ)) (buffer : Option (List ℚ)),
      (∀ c ∈ chunks, c.length = chunkLen) →
      (∀ b, buffer = some b → b.length ≤ bufferSize + chunkLen) →
      ∀ buf, runPullsFrom bufferSize buffer chunks = some buf →
        buf.length ≤ bufferSize + chunkLen := by
  intro chunks
  induction chunks with
  | nil =>
    intro buffer hL hb buf hbuf
    exact hb buf hbuf
  | cons c cs ih =>
    intro buffer hL hb buf hbuf
    refine ih (some (pullStep bufferSize buffer c)) (fun d hd => hL d (List.mem_cons_of_mem c hd)) ?_ buf hbuf
    intro b hb2
    cases hb2
    exact pullStep_length_le bufferSize chunkLen buffer c (hL c (List.mem_cons_self c cs)) hb

/-! Lemmas about the timer gate and poll sequences. -/

lemma div1000_lt_threehalves (t : ℚ) : t / 1000 < 3 / 2 ↔ t < 1500 := by
  rw [div_lt_iff₀ (by norm_num : (0 : ℚ) < 1000)]
  norm_num

lemma process_input_gated (classify : List ℚ → String) (st : PipelineState)
    (chunk : List ℚ) (cs : Controls) (tick : ℚ)
    (h : (st.bufferTimer + tick) / 1000 < st.streamBufferTime) :
    process_input classify st chunk cs tick =
      ⟨⟨st.buffer, st.bufferSize, st.bufferTimer + tick, st.streamBufferTime⟩, cs, false, none⟩ := by
  simp only [process_input, if_pos h]

lemma process_input_ungated (classify : List ℚ → String) (st : PipelineState)
    (chunk : List ℚ) (cs : Controls) (tick : ℚ)
    (h : ¬ (st.bufferTimer + tick) / 1000 < st.streamBufferTime) :
    process_input classify st chunk cs tick =
      ⟨⟨some (pullStep st.bufferSize st.buffer chunk), st.bufferSize, 0, st.streamBufferTime⟩,
        ⟨if (if st.bufferSize < (pullStep st.bufferSize st.buffer chunk).length then
              classify (pullStep st.bufferSize st.buffer chunk) else "noise") = "left" then 1 else 0,
         if (if st.bufferSize < (pullStep st.bufferSize st.buffer chunk).length then
              classify (pullStep st.bufferSize st.buffer chunk) else "noise") = "right" then 1 else 0,
         cs.shoot⟩,
        true,
        some (if st.bufferSize < (pullStep st.bufferSize st.buffer chunk).length then
              classify (pullStep st.bufferSize st.buffer chunk) else "noise")⟩ := by
  simp only [process_input, if_neg h]

lemma runPolls_no_pull (classify : List ℚ → String) :
    ∀ (calls : List (List ℚ × ℚ)) (st : PipelineState) (cs : Controls),
      st.streamBufferTime = 3 / 2 →
      st.bufferTimer + (calls.map Prod.snd).sum < 1500 →
      (∀ p ∈ calls, 0 ≤ p.2) →
      runPolls classify st cs calls =
        (⟨st.buffer, st.bufferSize, st.bufferTimer + (calls.map Prod.snd).sum,
          st.streamBufferTime⟩, cs, List.replicate calls.length false) := by
  intro calls
  induction calls with
  | nil =>
    intro st cs h32 hsum hpos
    simp [runPolls]
  | cons p rest ih =>
    intro st cs h32 hsum hpos
    obtain ⟨chunk, tick⟩ := p
    have hrestpos : ∀ q ∈ rest, 0 ≤ q.2 := fun q hq => hpos q (List.mem_cons_of_mem _ hq)
    have hrestsum : 0 ≤ (rest.map Prod.snd).sum := by
      refine List.sum_nonneg ?_
      intro x hx
      obtain ⟨q, hq, hqx⟩ := List.mem_map.mp hx
      exact hqx ▸ hrestpos q hq
    have hsum2 : st.bufferTimer + (tick + (rest.map Prod.snd).sum) < 1500 := by
      simpa using hsum
    have hgate : (st.bufferTimer + tick) / 1000 < st.streamBufferTime := by
      rw [h32, div1000_lt_threehalves]
      linarith
    rw [runPolls, process_input_gated classify st chunk cs tick hgate]
    rw [ih ⟨st.buffer, st.bufferSize, st.bufferTimer + tick, st.streamBufferTime⟩ cs h32
      (by simpa using by linarith) hrestpos]
    simp [List.replicate_succ]
    ring

lemma runPolls_first_pull (classify : List ℚ → String) :
    ∀ (init : List (List ℚ × ℚ)) (st : PipelineState) (cs : Controls)
      (chunk : List ℚ) (tick : ℚ),
      st.streamBufferTime = 3 / 2 →
      (∀ p ∈ init, 0 ≤ p.2) →
      st.bufferTimer + (init.map Prod.snd).sum < 1500 →
      1500 ≤ st.bufferTimer + (init.map Prod.snd).sum + tick →
      (runPolls classify st cs (init ++ [(chunk, tick)])).2.2 =
          List.replicate init.length false ++ [true] ∧
        (runPolls classify st cs (init ++ [(chunk, tick)])).1.bufferTimer = 0 := by
  intro init
  induction init with
  | nil =>
    intro st cs chunk tick h32 hpos hsum htot
    simp only [List.map_nil, List.sum_nil, add_zero] at htot
    have hgate : ¬ (st.bufferTimer + tick) / 1000 < st.streamBufferTime := by
      rw [h32, div1000_lt_threehalves, not_lt]
      linarith
    rw [List.nil_append, runPolls, process_input_ungated classify st chunk cs tick hgate]
    exact ⟨rfl, rfl⟩
  | cons p rest ih =>
    intro st cs chunk tick h32 hpos hsum htot
    obtain ⟨c, t⟩ := p
    have hrestpos : ∀ q ∈ rest, 0 ≤ q.2 := fun q hq => hpos q (List.mem_cons_of_mem _ hq)
    have hrestsum : 0 ≤ (rest.map Prod.snd).sum := by
      refine List.sum_nonneg ?_
      intro x hx
      obtain ⟨q, hq, hqx⟩ := List.mem_map.mp hx
      exact hqx ▸ hrestpos q hq
    have hsum2 : st.bufferTimer + (t + (rest.map Prod.snd).sum) < 1500 := by
      simpa using hsum
    have htot2 : 1500 ≤ st.bufferTimer + (t + (rest.map Prod.snd).sum) + tick := by
      simpa using htot
    have hgate : (st.bufferTimer + t) / 1000 < st.streamBufferTime := by
      rw [h32, div1000_lt_threehalves]
      linarith
    rw [List.cons_append, runPolls, process_input_gated classify st c cs t hgate]
    obtain ⟨ih1, ih2⟩ := ih ⟨st.buffer, st.bufferSize, st.bufferTimer + t, st.streamBufferTime⟩
      cs chunk tick h32 hrestpos (by simpa using by linarith) (by simpa using by linarith)
    refine ⟨?_, ih2⟩
    rw [List.length_cons, List.replicate_succ, List.cons_append]
    exact congrArg (List.cons false) ih1

lemma left_right_if (lbl : String) :
    ¬ ((if lbl = "left" then (1 : Nat) else 0) = 1 ∧ (if lbl = "right" then (1 : Nat) else 0) = 1) := by
  intro hc
  obtain ⟨h1, h2⟩ := hc
  by_cases hL : lbl = "left"
  · rw [hL] at h2
    simp at h2
  · rw [if_neg hL] at h1
    exact absurd h1 (by decide)

/-! Claim theorems. -/

/-- C1: for every byte sequence the frame decoder scans positions 1 through
len-2 (skipping the first and last byte) and, at each byte with value > 127,
emits exactly one sample `(byte & 0x7F) * 128 + next_byte`, consuming both
bytes and skipping all other bytes (the behaviour captured by `decodeSpec`);
in particular decoding `[0x00, 0x81, 0x05, 0x00]` yields exactly `[133]`. -/
theorem claim_C1_frame_decoder :
    (∀ data : List Nat, process_data data = decodeSpec data) ∧
      process_data [0x00, 0x81, 0x05, 0x00] = [133] := by
  refine ⟨process_data_eq_decodeSpec, ?_⟩
  rw [process_data_eq_decodeSpec]
  decide

/-- C2 counterexample: the claim fails for pulls of unequal chunk length.
With `buffer_size = 1`, pulling chunk `[1, 2, 3]` and then the empty chunk
makes the second pull trim (window length 3 > 1); immediately after that trim
(dropping `len(chunk) + 1 = 1` samples) the window `[2, 3]` still has length
2 > `buffer_size`, and strictly before the trim its length 3 exceeds
`buffer_size + chunk_length = 1 + 0`. -/
theorem claim_C2_counterexample :
    runPulls 1 [[(1 : ℚ), 2, 3]] = some [1, 2, 3] ∧
      1 < ([(1 : ℚ), 2, 3] : List ℚ).length ∧
      pullStep 1 (some [(1 : ℚ), 2, 3]) [] = [2, 3] ∧
      ¬ ((([(1 : ℚ), 2, 3] : List ℚ).drop (([] : List ℚ).length + 1)).length ≤ 1) ∧
      ¬ (([(1 : ℚ), 2, 3] : List ℚ).length ≤ 1 + ([] : List ℚ).length) := by
  refine ⟨rfl, by decide, rfl, by decide, by decide⟩

/-- C2 (amended): starting from the empty pipeline, provided every pulled
chunk has the same length `chunkLen`, the window entering any pull has length
at most `buffer_size + chunkLen` (so in particular strictly before each trim),
immediately after each trim the window length is at most `buffer_size`, and
window lengths are never negative. -/
theorem claim_C2_window_bound (bufferSize chunkLen : Nat) (chunks : List (List ℚ))
    (hL : ∀ c ∈ chunks, c.length = chunkLen) (k : Nat) (hk : k < chunks.length)
    (buf : List ℚ) (hbuf : runPulls bufferSize (chunks.take k) = some buf) :
    buf.length ≤ bufferSize + chunkLen ∧
      (bufferSize < buf.length →
        (buf.drop (chunks[k].length + 1)).length ≤ bufferSize) ∧
      0 ≤ buf.length := by
  have hlen : buf.length ≤ bufferSize + chunkLen := by
    refine runPullsFrom_length_le bufferSize chunkLen (chunks.take k) none ?_ ?_ buf hbuf
    · intro c hc
      exact hL c (List.take_subset k chunks hc)
    · intro b hb
      simp at hb
  refine ⟨hlen, ?_, Nat.zero_le _⟩
  intro hgt
  have hck : chunks[k].length = chunkLen := hL _ (List.getElem_mem hk)
  rw [List.length_drop, hck]
  omega

/-- C2 witness: instantiation of `claim_C2_window_bound` with `buffer_size =
0`, chunks `[[1], [2]]` of equal length 1, at the second pull. -/
theorem claim_C2_witness :
    (∀ c ∈ [[(1 : ℚ)], [2]], c.length = 1) ∧
      1 < ([[(1 : ℚ)], [2]] : List (List ℚ)).length ∧
      runPulls 0 ([[(1 : ℚ)], [2]].take 1) = some [1] ∧
      ([(1 : ℚ)] : List ℚ).length ≤ 0 + 1 ∧
      (0 < ([(1 : ℚ)] : List ℚ).length →
        (([(1 : ℚ)] : List ℚ).drop (([[(1 : ℚ)], [2]] : List (List ℚ))[1].length + 1)).length ≤ 0) ∧
      0 ≤ ([(1 : ℚ)] : List ℚ).length := by
  have h := claim_C2_window_bound 0 1 [[(1 : ℚ)], [2]] (by decide) 1 (by decide) [1] rfl
  exact ⟨by decide, by decide, rfl, h.1, h.2.1, h.2.2⟩

/-- C4 counterexample: `update()` does not always return a chunk-length
slice.  On the very scenario the claim cites (a 25-element array with
`chunk = 10`), the third read starts at pointer 20 and returns only the 5
remaining samples, not `chunk = 10`. -/
theorem claim_C4_counterexample :
    (ArrayStream.update ⟨(List.range 25).map (fun n => (n : ℚ)), 10, 20⟩).slice.length = 5 ∧
      ¬ ((ArrayStream.update ⟨(List.range 25).map (fun n => (n : ℚ)), 10, 20⟩).slice.length =
          (ArrayStream.update ⟨(List.range 25).map (fun n => (n : ℚ)), 10, 20⟩).state.chunk) := by
  refine ⟨by decide, by decide⟩

/-- C4 (amended): for every `ArrayStream` state, `update()` returns the slice
`array[pointer : pointer + chunk]` (of length `chunk` except truncated at the
end of the array), advances the pointer by `chunk`, and wraps the pointer to 0
(emitting a restart notice) exactly when the advanced pointer exceeds the
array length; `update` is total, so no call raises a past-end-of-data error.
In particular, over a 25-element array with `chunk = 10`, after 3 `update()`
calls the pointer has wrapped back to 0 and exactly one restart notice was
emitted. -/
theorem claim_C4_array_replay :
    (∀ s : ArrayStream,
        s.update.slice = (s.array.drop s.pointer).take s.chunk ∧
        s.update.state.array = s.array ∧
        s.update.state.chunk = s.chunk ∧
        s.update.state.pointer =
          (if s.array.length < s.pointer + s.chunk then 0 else s.pointer + s.chunk) ∧
        (s.update.restarted = true ↔ s.array.length < s.pointer + s.chunk)) ∧
      (ArrayStream.runUpdates ⟨(List.range 25).map (fun n => (n : ℚ)), 10, 0⟩ 3).1.pointer = 0 ∧
      (ArrayStream.runUpdates ⟨(List.range 25).map (fun n => (n : ℚ)), 10, 0⟩ 3).2.count true = 1 := by
  refine ⟨?_, by decide, by decide⟩
  intro s
  by_cases h : s.array.length < s.pointer + s.chunk
  · simp [ArrayStream.update, h]
  · simp [ArrayStream.update, h]

/-- C7: the claim says normalization must not divide by zero on a window
whose mean-centred signal has maximum absolute value 0.  The code divides
unconditionally: on a constant window (and on the all-zero window) the
divisor `np.max(np.abs(signal - mean))` is 0, so the division by zero is hit
(modelled as `none`); a non-constant window gets a defined result. -/
theorem claim_C7_flat_divzero :
    normalise_signal [5, 5, 5, 5] = none ∧
      normalise_signal [0, 0, 0] = none ∧
      normalise_signal [1, 2, 3] = some [-1, 0, 1] := by
  refine ⟨?_, ?_, ?_⟩ <;> norm_num [normalise_signal, maxAbs]

/-- C9 counterexample: when the window exceeds `buffer_size` but is shorter
than `len(chunk) + 1`, the trim empties it and the appended chunk replaces it,
so the length does not decrease by 1.  With `buffer_size = 0`, window `[1]`
(length 1 > 0 triggers the trim) and chunk `[2, 3]`, the new window has
length 2, not 0. -/
theorem claim_C9_counterexample :
    0 < ([(1 : ℚ)] : List ℚ).length ∧
      (pullStep 0 (some [(1 : ℚ)]) [2, 3]).length = 2 ∧
      ¬ ((pullStep 0 (some [(1 : ℚ)]) [2, 3]).length + 1 = ([(1 : ℚ)] : List ℚ).length) := by
  refine ⟨by decide, by decide, by decide⟩

/-- C9 (amended): whenever the window length strictly exceeds `buffer_size`
at the start of a pull and is at least `len(chunk) + 1`, the pull drops
`len(chunk) + 1` samples from the front and appends the chunk, so the window
length decreases by exactly 1 on that pull (the window shrinks one sample per
pull rather than being cut back to `buffer_size` at once). -/
theorem claim_C9_shrink_by_one (bufferSize : Nat) (buf chunk : List ℚ)
    (h1 : bufferSize < buf.length) (h2 : chunk.length + 1 ≤ buf.length) :
    pullStep bufferSize (some buf) chunk = buf.drop (chunk.length + 1) ++ chunk ∧
      (pullStep bufferSize (some buf) chunk).length + 1 = buf.length := by
  constructor
  · simp [pullStep, if_pos h1]
  · simp only [pullStep, if_pos h1, List.length_append, List.length_drop]
    omega

/-- C9 witness: `buffer_size = 0`, window `[1, 2]`, chunk `[3]`: the pull
drops 2 samples, appends 1, and the window length falls from 2 to 1. -/
theorem claim_C9_witness :
    0 < ([(1 : ℚ), 2] : List ℚ).length ∧
      ([(3 : ℚ)] : List ℚ).length + 1 ≤ ([(1 : ℚ), 2] : List ℚ).length ∧
      pullStep 0 (some [(1 : ℚ), 2]) [3] =
        ([(1 : ℚ), 2].drop (([(3 : ℚ)] : List ℚ).length + 1)) ++ [3] ∧
      (pullStep 0 (some [(1 : ℚ), 2]) [3]).length + 1 = ([(1 : ℚ), 2] : List ℚ).length := by
  have h := claim_C9_shrink_by_one 0 [(1 : ℚ), 2] [3] (by decide) (by decide)
  exact ⟨by decide, by decide, h.1, h.2⟩

/-- C3: with the stream's `buffer_time = 1.5` s and the timer starting at 0,
a sequence of `process_input` calls whose (non-negative) ticks sum to less
than 1500 ms never pulls a chunk from the stream; appending one further call
that brings the cumulative elapsed time to at least 1500 ms makes exactly
that call pull a chunk, and it resets `buffer_timer` to 0. -/
theorem claim_C3_gating (classify : List ℚ → String) (st0 : PipelineState) (cs0 : Controls)
    (h32 : st0.streamBufferTime = 3 / 2) (h0 : st0.bufferTimer = 0) :
    (∀ calls : List (List ℚ × ℚ),
        (∀ p ∈ calls, 0 ≤ p.2) →
        (calls.map Prod.snd).sum < 1500 →
        ∀ b ∈ (runPolls classify st0 cs0 calls).2.2, b = false) ∧
      (∀ (init : List (List ℚ × ℚ)) (chunk : List ℚ) (tick : ℚ),
        (∀ p ∈ init, 0 ≤ p.2) →
        (init.map Prod.snd).sum < 1500 →
        1500 ≤ (init.map Prod.snd).sum + tick →
        (runPolls classify st0 cs0 (init ++ [(chunk, tick)])).2.2 =
            List.replicate init.length false ++ [true] ∧
          (runPolls classify st0 cs0 (init ++ [(chunk, tick)])).1.bufferTimer = 0) := by
  constructor
  · intro calls hpos hsum
    have h := runPolls_no_pull classify calls st0 cs0 h32 (by rw [h0]; simpa using hsum) hpos
    rw [h]
    intro b hb
    exact List.eq_of_mem_replicate hb
  · intro init chunk tick hpos hsum htot
    exact runPolls_first_pull classify init st0 cs0 chunk tick h32 hpos
      (by rw [h0]; simpa using hsum) (by rw [h0]; simpa using htot)

/-- C3 witness: `buffer_time = 1.5` s, calls with ticks 1000 ms then 600 ms:
the first call (cumulative 1000 < 1500) does not pull, the second (cumulative
1600 ≥ 1500) pulls, and the timer ends at 0. -/
theorem claim_C3_witness :
    (runPolls (fun _ => "noise") ⟨none, 0, 0, 3 / 2⟩ ⟨0, 0, 0⟩
        [([], 1000), ([], 600)]).2.2 = [false, true] ∧
      (runPolls (fun _ => "noise") ⟨none, 0, 0, 3 / 2⟩ ⟨0, 0, 0⟩
        [([], 1000), ([], 600)]).1.bufferTimer = 0 := by
  have h := (claim_C3_gating (fun _ => "noise") ⟨none, 0, 0, 3 / 2⟩ ⟨0, 0, 0⟩ rfl rfl).2
    [([], 1000)] [] 600
    (by intro p hp; simp at hp; rw [hp]; norm_num)
    (by norm_num) (by norm_num)
  constructor
  · simpa using h.1
  · simpa using h.2

/-- C5 counterexample: the claim's threshold is "window length ≥ buffer_size",
but the code classifies only when the length is strictly greater.  With
`buffer_size = 2` and a first chunk of length exactly 2 (and a classifier that
never answers "noise"), the window length equals `buffer_size` and yet the
label is `"noise"`: the classifier was not invoked. -/
theorem claim_C5_counterexample :
    (process_input (fun _ => "left") ⟨none, 2, 0, 0⟩ [1, 2] ⟨0, 0, 0⟩ 1).state.buffer =
        some [1, 2] ∧
      ([(1 : ℚ), 2] : List ℚ).length = 2 ∧
      (process_input (fun _ => "left") ⟨none, 2, 0, 0⟩ [1, 2] ⟨0, 0, 0⟩ 1).label =
        some "noise" ∧
      (some "noise" : Option String) ≠ some "left" := by
  rw [process_input_ungated (fun _ => "left") ⟨none, 2, 0, 0⟩ [1, 2] ⟨0, 0, 0⟩ 1 (by norm_num)]
  refine ⟨rfl, by decide, ?_, by decide⟩
  norm_num [pullStep]

/-- C5 (amended): on every pull (timer gate passed), classification is
attempted exactly when the new window length strictly exceeds `buffer_size`;
when the length is less than or equal to `buffer_size` the classifier is not
invoked and the label is `"noise"`. -/
theorem claim_C5_threshold (classify : List ℚ → String) (st : PipelineState)
    (chunk : List ℚ) (cs : Controls) (tick : ℚ)
    (h : ¬ (st.bufferTimer + tick) / 1000 < st.streamBufferTime) :
    (process_input classify st chunk cs tick).state.buffer =
        some (pullStep st.bufferSize st.buffer chunk) ∧
      (st.bufferSize < (pullStep st.bufferSize st.buffer chunk).length →
        (process_input classify st chunk cs tick).label =
          some (classify (pullStep st.bufferSize st.buffer chunk))) ∧
      ((pullStep st.bufferSize st.buffer chunk).length ≤ st.bufferSize →
        (process_input classify st chunk cs tick).label = some "noise") := by
  rw [process_input_ungated classify st chunk cs tick h]
  refine ⟨rfl, ?_, ?_⟩
  · intro hgt
    simp [if_pos hgt]
  · intro hle
    simp [Nat.not_lt.mpr hle]

/-- C5 witness: a pull with `buffer_size = 0` and chunk `[1]` ends with
window length 1 > 0, so the classifier is invoked and its label returned. -/
theorem claim_C5_witness :
    ¬ (((0 : ℚ) + 0) / 1000 < 0) ∧
      (process_input (fun _ => "left") ⟨none, 0, 0, 0⟩ [1] ⟨0, 0, 0⟩ 0).state.buffer =
        some [1] ∧
      (process_input (fun _ => "left") ⟨none, 0, 0, 0⟩ [1] ⟨0, 0, 0⟩ 0).label =
        some "left" := by
  have h := claim_C5_threshold (fun _ => "left") ⟨none, 0, 0, 0⟩ [1] ⟨0, 0, 0⟩ 0 (by norm_num)
  exact ⟨by norm_num, h.1, h.2.1 (by decide)⟩

/-- C6: on every poll that produces a label (`"noise"` included), the control
update sets LEFT to 1 iff the label is `"left"`, RIGHT to 1 iff the label is
`"right"`, and both to 0 otherwise; LEFT and RIGHT are never both 1. -/
theorem claim_C6_label_mapping (classify : List ℚ → String) (st : PipelineState)
    (chunk : List ℚ) (cs : Controls) (tick : ℚ) (lbl : String)
    (h : (process_input classify st chunk cs tick).label = some lbl) :
    (process_input classify st chunk cs tick).controls.left =
        (if lbl = "left" then 1 else 0) ∧
      (process_input classify st chunk cs tick).controls.right =
        (if lbl = "right" then 1 else 0) ∧
      ¬ ((process_input classify st chunk cs tick).controls.left = 1 ∧
         (process_input classify st chunk cs tick).controls.right = 1) := by
  by_cases hg : (st.bufferTimer + tick) / 1000 < st.streamBufferTime
  · rw [process_input_gated classify st chunk cs tick hg] at h
    exact absurd h (by simp)
  · rw [process_input_ungated classify st chunk cs tick hg] at h
    have hl : (if st.bufferSize < (pullStep st.bufferSize st.buffer chunk).length then
        classify (pullStep st.bufferSize st.buffer chunk) else "noise") = lbl := by
      simpa using h
    rw [process_input_ungated classify st chunk cs tick hg]
    subst hl
    exact ⟨rfl, rfl, left_right_if _⟩

/-- C6 witness: a poll whose classifier answers `"left"` sets LEFT to 1 and
RIGHT to 0, and does not set both. -/
theorem claim_C6_witness :
    (process_input (fun _ => "left") ⟨none, 0, 0, 0⟩ [1] ⟨0, 1, 1⟩ 0).label = some "left" ∧
      (process_input (fun _ => "left") ⟨none, 0, 0, 0⟩ [1] ⟨0, 1, 1⟩ 0).controls.left = 1 ∧
      (process_input (fun _ => "left") ⟨none, 0, 0, 0⟩ [1] ⟨0, 1, 1⟩ 0).controls.right = 0 ∧
      ¬ ((process_input (fun _ => "left") ⟨none, 0, 0, 0⟩ [1] ⟨0, 1, 1⟩ 0).controls.left = 1 ∧
         (process_input (fun _ => "left") ⟨none, 0, 0, 0⟩ [1] ⟨0, 1, 1⟩ 0).controls.right = 1) := by
  have hlabel : (process_input (fun _ => "left") ⟨none, 0, 0, 0⟩ [1] ⟨0, 1, 1⟩ 0).label =
      some "left" := by
    rw [process_input_ungated (fun _ => "left") ⟨none, 0, 0, 0⟩ [1] ⟨0, 1, 1⟩ 0 (by norm_num)]
    norm_num [pullStep]
  have h := claim_C6_label_mapping (fun _ => "left") ⟨none, 0, 0, 0⟩ [1] ⟨0, 1, 1⟩ 0 "left" hlabel
  refine ⟨hlabel, ?_, ?_, h.2.2⟩
  · simpa using h.1
  · simpa using h.2.1

/-- C8: no `process_input` call ever modifies the SHOOT control: its value in
the returned controls equals its value in the controls passed in, on both the
gated and the pulling path. -/
theorem claim_C8_shoot_untouched (classify : List ℚ → String) (st : PipelineState)
    (chunk : List ℚ) (cs : Controls) (tick : ℚ) :
    (process_input classify st chunk cs tick).controls.shoot = cs.shoot := by
  by_cases hg : (st.bufferTimer + tick) / 1000 < st.streamBufferTime
  · rw [process_input_gated classify st chunk cs tick hg]
  · rw [process_input_ungated classify st chunk cs tick hg]

/-- C10: a `process_input` call still inside the gate (accumulated timer
divided by 1000 below the stream's `buffer_time`) returns the controls object
unchanged — LEFT/RIGHT flags set earlier persist — pulls no chunk, produces
no label, leaves the window untouched, and only accumulates the tick into
`buffer_timer`. -/
theorem claim_C10_gated_no_effect (classify : List ℚ → String) (st : PipelineState)
    (chunk : List ℚ) (cs : Controls) (tick : ℚ)
    (h : (st.bufferTimer + tick) / 1000 < st.streamBufferTime) :
    process_input classify st chunk cs tick =
        ⟨⟨st.buffer, st.bufferSize, st.bufferTimer + tick, st.streamBufferTime⟩,
          cs, false, none⟩ ∧
      (process_input classify st chunk cs tick).controls = cs ∧
      (process_input classify st chunk cs tick).state.buffer = st.buffer := by
  have he := process_input_gated classify st chunk cs tick h
  exact ⟨he, by rw [he], by rw [he]⟩

/-- C10 witness: with 100 ms accumulated, a 200 ms tick against a 1.5 s gate
changes nothing but the timer; controls (LEFT already 1) pass through. -/
theorem claim_C10_witness :
    ((100 : ℚ) + 200) / 1000 < 3 / 2 ∧
      process_input (fun _ => "left") ⟨some [1], 5, 100, 3 / 2⟩ [2] ⟨1, 0, 1⟩ 200 =
        ⟨⟨some [1], 5, 300, 3 / 2⟩, ⟨1, 0, 1⟩, false, none⟩ ∧
      (process_input (fun _ => "left") ⟨some [1], 5, 100, 3 / 2⟩ [2] ⟨1, 0, 1⟩ 200).controls.left
        = 1 := by
  have hgate : ((100 : ℚ) + 200) / 1000 < 3 / 2 := by norm_num
  have h := claim_C10_gated_no_effect (fun _ => "left") ⟨some [1], 5, 100, 3 / 2⟩ [2]
    ⟨1, 0, 1⟩ 200 hgate
  rw [show ((100 : ℚ) + 200) = 300 by norm_num] at h
  exact ⟨hgate, h.1, by rw [h.2.1]⟩

end BrainBox
